import Mathlib

/-!
Verification of the `frame` repository's conversion scheduler and workers
(`src-tauri/src/conversion/{manager,worker,upscale,utils}.rs`), as a shallow
embedding in Lean 4.

Numeric conventions: Rust `f64` arithmetic is embedded as exact rational
arithmetic over `ℚ`.  All concrete values appearing in the claims
(`10.5`, `3600.0`, `90.0`, `30.5`, `75.0`, the progress band bounds) are
exactly representable in binary floating point and are reached here by the
same additions, multiplications and divisions the Rust code performs, so the
rational model agrees with the `f64` computation at every value the theorems
touch.  OS effects (spawning a worker, signalling a process, removing a
directory, emitting an event) are embedded as elements of an explicit
`Effect` list returned alongside the successor state.
-/

namespace Frame

/-- Digits of a decimal literal folded into a natural number
(`'0'` has code 48). -/
def natOfDigits (cs : List Char) : Nat :=
  cs.foldl (fun a c => a * 10 + (c.toNat - 48)) 0

/-- Character-list split mirroring Rust `str::split(sep)`: the empty input
yields one empty part, and every separator occurrence starts a new part. -/
def splitOnCharacter (sep : Char) : List Char → List (List Char)
  | [] => [[]]
  | c :: rest =>
    if c = sep then [] :: splitOnCharacter sep rest
    else
      match splitOnCharacter sep rest with
      | [] => [[c]]
      | h :: t => (c :: h) :: t

/-- Both-ends whitespace trim mirroring Rust `str::trim`. -/
def trimCharacters (cs : List Char) : List Char :=
  ((cs.dropWhile Char.isWhitespace).reverse.dropWhile Char.isWhitespace).reverse

/-- Unsigned decimal magnitude: integer digits, optionally a dot and
fractional digits (either side may be empty but not both), as an exact
rational. -/
def parseDecimalMag (body : List Char) : Option ℚ :=
  let intPart := body.takeWhile (fun c => !(c = '.'))
  let rest := body.dropWhile (fun c => !(c = '.'))
  match rest with
  | [] =>
    if intPart.isEmpty || !intPart.all Char.isDigit then none
    else some ((natOfDigits intPart : ℚ))
  | _ :: frac =>
    if frac.any (fun c => c = '.') then none
    else if intPart.isEmpty && frac.isEmpty then none
    else if !intPart.all Char.isDigit || !frac.all Char.isDigit then none
    else some ((natOfDigits intPart : ℚ) +
      (natOfDigits frac : ℚ) / ((10 : ℚ) ^ frac.length))

/-- Model of Rust `str::parse::<f64>()` restricted to plain decimal literals
(optional sign, integer digits, optional fractional digits), returning the
exact rational value.  Exponent, `inf` and `nan` forms never occur in the
streams the conversion code parses and are rejected here. -/
def parseDecimal (cs : List Char) : Option ℚ :=
  match cs with
  | '-' :: t => (parseDecimalMag t).map (fun q => -q)
  | '+' :: t => parseDecimalMag t
  | t => parseDecimalMag t

/-- Embedding of `utils.rs::parse_time`: splits on `':'` and dispatches on the
number of parts — raw seconds, `MM:SS` (seconds part trimmed), or
`HH:MM:SS[.ms]` (seconds part trimmed); any other part count is rejected. -/
def parse_time (timeStr : String) : Option ℚ :=
  match splitOnCharacter ':' timeStr.toList with
  | [p0] => parseDecimal p0
  | [p0, p1] => do
    let m ← parseDecimal p0
    let s ← parseDecimal (trimCharacters p1)
    pure (m * 60 + s)
  | [p0, p1, p2] => do
    let h ← parseDecimal p0
    let m ← parseDecimal p1
    let s ← parseDecimal (trimCharacters p2)
    pure (h * 3600 + m * 60 + s)
  | _ => none

/-- Task identifiers are client-assigned strings; process identifiers are the
numeric value of a Rust `u32`. -/
abbrev TaskId := String

/-- OS process identifier (`u32` in the source). -/
abbrev Pid := Nat

/-- Embedding of `types.rs::ConversionTask` restricted to the fields the
scheduler consults: the scheduler reads only `task.id` and hands the rest of
the task to the worker unchanged. -/
structure ConversionTask where
  id : TaskId
  deriving Repr, DecidableEq

/-- `types.rs::DEFAULT_MAX_CONCURRENCY`. -/
def DEFAULT_MAX_CONCURRENCY : Nat := 2

/-- Embedding of `error.rs::ConversionError`, restricted to the variants the
manager produces. -/
inductive ConversionError where
  | shell (msg : String)
  | worker (msg : String)
  | invalidInput (msg : String)
  | taskNotFound (id : String)
  deriving Repr, DecidableEq

/-- Embedding of `manager.rs::ManagerMessage`.  The error payload of
`TaskError` does not influence the scheduler state transition, so it is
carried as the error's rendered text. -/
inductive ManagerMessage where
  | enqueue (task : ConversionTask)
  | taskStarted (id : TaskId) (pid : Pid)
  | taskCompleted (id : TaskId)
  | taskError (id : TaskId)
  deriving Repr, DecidableEq

/-- Observable OS/UI effects of a scheduler transition, in emission order:
spawning `run_ffmpeg_worker` for a task (the spawned worker is the sole
emitter of that task's `conversion-started` event), signalling a process,
removing a directory tree, and emitting log / error events. -/
inductive Effect where
  | spawnWorker (id : TaskId)
  | terminate (pid : Pid)
  | suspend (pid : Pid)
  | resume (pid : Pid)
  | removeDirAll (name : String)
  | emitLog (id : TaskId)
  | emitError (id : TaskId)
  deriving Repr, DecidableEq

/-- Association-list lookup for the `active_tasks : HashMap<String, u32>`
map. -/
def alookup (l : List (TaskId × Pid)) (id : TaskId) : Option Pid :=
  match l with
  | [] => none
  | kv :: rest => if kv.1 = id then some kv.2 else alookup rest id

/-- `HashMap::remove` on the association list. -/
def aerase (l : List (TaskId × Pid)) (id : TaskId) : List (TaskId × Pid) :=
  match l with
  | [] => []
  | kv :: rest => if kv.1 = id then aerase rest id else kv :: aerase rest id

/-- `HashMap::insert` on the association list (replacing any prior entry). -/
def ainsert (l : List (TaskId × Pid)) (id : TaskId) (pid : Pid) :
    List (TaskId × Pid) :=
  (id, pid) :: aerase l id

/-- The aggregate scheduler state of `manager.rs`: the control loop's
`queue`, `queued_ids` and `running_tasks` (the id set of the
`HashMap<String, ()>`), together with the shared `cancelled_tasks`,
`active_tasks` and `max_concurrency` cells.  The single control loop
serializes every mutation, so the whole aggregate is modelled as one record
transformed by pure steps. -/
structure SchedState where
  queue : List ConversionTask
  queuedIds : Finset TaskId
  running : Finset TaskId
  cancelled : Finset TaskId
  active : List (TaskId × Pid)
  maxConcurrency : Nat
  deriving DecidableEq

/-- The state the manager starts in (`ConversionManager::new`). -/
def initState : SchedState :=
  { queue := [], queuedIds := ∅, running := ∅, cancelled := ∅, active := [],
    maxConcurrency := DEFAULT_MAX_CONCURRENCY }

/-- Result of the drain loop: the four mutated components of
`process_queue`, plus the worker-spawn effects in order. -/
structure DrainResult where
  queue : List ConversionTask
  queuedIds : Finset TaskId
  running : Finset TaskId
  cancelled : Finset TaskId
  effects : List Effect
  deriving DecidableEq

/-- The `while running_tasks.len() < limit` loop of
`ConversionManager::process_queue`: below the limit, pop the front task,
drop it from `queued_ids`, consume any cancellation mark (`HashSet::remove`
both tests and erases), discard the task if it was marked, otherwise mark it
running and spawn its worker; at the limit, or when the queue is empty, stop.
(The Rust loop exits through `pop_front` returning `None` on the empty queue;
reaching the limit and exhausting the queue leave the state identically.) -/
def drainLoop (limit : Nat) :
    List ConversionTask → Finset TaskId → Finset TaskId → Finset TaskId →
    DrainResult
  | [], qids, running, cancelled =>
    ⟨[], qids, running, cancelled, []⟩
  | task :: rest, qids, running, cancelled =>
    if running.card < limit then
      let qids' := qids.erase task.id
      if task.id ∈ cancelled then
        drainLoop limit rest qids' running (cancelled.erase task.id)
      else
        let r := drainLoop limit rest qids' (insert task.id running)
          (cancelled.erase task.id)
        ⟨r.queue, r.queuedIds, r.running, r.cancelled,
          Effect.spawnWorker task.id :: r.effects⟩
    else ⟨task :: rest, qids, running, cancelled, []⟩

/-- Embedding of `ConversionManager::process_queue`: reads the concurrency
cell, clamps it to at least 1, and runs the drain loop over the queue. -/
def processQueue (s : SchedState) : SchedState × List Effect :=
  let limit := max s.maxConcurrency 1
  let r := drainLoop limit s.queue s.queuedIds s.running s.cancelled
  ({ s with
      queue := r.queue
      queuedIds := r.queuedIds
      running := r.running
      cancelled := r.cancelled }, r.effects)

/-- One iteration of the control loop of `ConversionManager::new`: the
`match msg` over the four `ManagerMessage` arms. -/
def stepMsg (s : SchedState) (m : ManagerMessage) : SchedState × List Effect :=
  match m with
  | .enqueue task =>
    let s1 := { s with cancelled := s.cancelled.erase task.id }
    if task.id ∈ s.running ∨ task.id ∈ s.queuedIds then (s1, [])
    else
      processQueue
        { s1 with
            queuedIds := insert task.id s1.queuedIds
            queue := s1.queue ++ [task] }
  | .taskStarted id pid =>
    if id ∈ s.cancelled then
      let s1 :=
        { s with
            running := s.running.erase id
            active := aerase s.active id }
      let r := processQueue s1
      (r.1, (if 0 < pid then [Effect.terminate pid] else []) ++ r.2)
    else ({ s with active := ainsert s.active id pid }, [])
  | .taskCompleted id =>
    let s1 :=
      { s with
          running := s.running.erase id
          cancelled := s.cancelled.erase id
          active := aerase s.active id }
    processQueue s1
  | .taskError id =>
    let s1 :=
      { s with
          running := s.running.erase id
          cancelled := s.cancelled.erase id
          active := aerase s.active id }
    let r := processQueue s1
    (r.1, Effect.emitLog id :: Effect.emitError id :: r.2)

/-- The deterministic temporary-directory name
`frame_upscale_{id}` used by `cleanup_temp_upscale_dir` and the upscale
worker. -/
def tempUpscaleDirName (id : TaskId) : String :=
  "frame_upscale_" ++ id

/-- Embedding of `ConversionManager::terminate_process` (Unix variant: an
ignored unstick `SIGCONT` followed by a forceful `SIGKILL`; the Windows
adapter differs only in its error texts).  The invocation of the primitive is
the `Effect.terminate` entry; the Boolean argument is the environment's
answer — whether the forceful-kill delivery succeeded (`libc::kill(pid,
SIGKILL) == 0`).  A failed delivery is surfaced as a `Shell` error. -/
def terminate_process (pid : Pid) (killOk : Bool) :
    List Effect × Except ConversionError Unit :=
  if killOk then ([Effect.terminate pid], Except.ok ())
  else ([Effect.terminate pid],
    Except.error (ConversionError.shell "Failed to send SIGKILL"))

/-- Embedding of `ConversionManager::cancel_task`: marks the id cancelled,
then looks up the active map.  With a recorded positive pid it calls
`terminate_process(pid)?` — on a failed kill the `Shell` error propagates
and `cleanup_temp_upscale_dir` is skipped; on success, and in the
no-entry and pid-0 cases, the directory removal is attempted (its own
failure and the directory's absence are tolerated inside
`cleanup_temp_upscale_dir`) and the call returns `Ok`.  `killOk` is the
environment's answer for the embedded kill. -/
def cancel_task (s : SchedState) (id : TaskId) (killOk : Bool) :
    SchedState × List Effect × Except ConversionError Unit :=
  let s1 := { s with cancelled := insert id s.cancelled }
  match alookup s1.active id with
  | some pid =>
    if 0 < pid then
      match terminate_process pid killOk with
      | (effs, Except.ok _) =>
        (s1, effs ++ [Effect.removeDirAll (tempUpscaleDirName id)],
          Except.ok ())
      | (effs, Except.error e) => (s1, effs, Except.error e)
    else
      (s1, [Effect.removeDirAll (tempUpscaleDirName id)], Except.ok ())
  | none =>
    (s1, [Effect.removeDirAll (tempUpscaleDirName id)], Except.ok ())

/-- Embedding of `ConversionManager::pause_task` (Unix variant): failing with
`TaskNotFound` when no entry exists or the recorded pid is the 0 sentinel;
otherwise the stop signal is sent (`Effect.suspend`), and a failed delivery
(`sigOk = false`) is surfaced as a `Shell` error. -/
def pause_task (s : SchedState) (id : TaskId) (sigOk : Bool) :
    List Effect × Except ConversionError Unit :=
  match alookup s.active id with
  | some pid =>
    if pid = 0 then ([], Except.error (ConversionError.taskNotFound id))
    else if sigOk then ([Effect.suspend pid], Except.ok ())
    else ([Effect.suspend pid],
      Except.error (ConversionError.shell "Failed to send SIGSTOP"))
  | none => ([], Except.error (ConversionError.taskNotFound id))

/-- Embedding of `ConversionManager::resume_task` (Unix variant), symmetric
to `pause_task` with the continue signal. -/
def resume_task (s : SchedState) (id : TaskId) (sigOk : Bool) :
    List Effect × Except ConversionError Unit :=
  match alookup s.active id with
  | some pid =>
    if pid = 0 then ([], Except.error (ConversionError.taskNotFound id))
    else if sigOk then ([Effect.resume pid], Except.ok ())
    else ([Effect.resume pid],
      Except.error (ConversionError.shell "Failed to send SIGCONT"))
  | none => ([], Except.error (ConversionError.taskNotFound id))

/-- Embedding of `ConversionManager::update_max_concurrency`: rejects 0,
otherwise stores the new limit. -/
def update_max_concurrency (s : SchedState) (value : Nat) :
    SchedState × Except ConversionError Unit :=
  if value = 0 then
    (s, Except.error (ConversionError.invalidInput
      "Max concurrency must be at least 1"))
  else ({ s with maxConcurrency := value }, Except.ok ())

/-- One interleaving action against the scheduler: a control-loop message, a
concurrency-limit update, or an externally-called cancellation (the two
operations that mutate scheduler state from outside the loop).  A
cancellation carries the environment's kill outcome, so traces range over
both the successful and the failed signal-delivery path. -/
inductive Action where
  | msg (m : ManagerMessage)
  | setLimit (n : Nat)
  | cancel (id : TaskId) (killOk : Bool)
  deriving Repr, DecidableEq

/-- Effect of one action on the scheduler state. -/
def step (s : SchedState) (a : Action) : SchedState × List Effect :=
  match a with
  | .msg m => stepMsg s m
  | .setLimit n => ((update_max_concurrency s n).1, [])
  | .cancel id killOk =>
    let r := cancel_task s id killOk
    (r.1, r.2.1)

/-- State after a sequence of actions. -/
def runActions (s : SchedState) : List Action → SchedState
  | [] => s
  | a :: rest => runActions (step s a).1 rest

/-- All effects emitted along a sequence of actions, in order. -/
def runEffects (s : SchedState) : List Action → List Effect
  | [] => []
  | a :: rest => (step s a).2 ++ runEffects (step s a).1 rest

/-- The trim-aware expected active duration of `run_ffmpeg_worker`
(`worker.rs` lines 61–83): `max((end ?? full_duration) - (start ?? 0), 0)`,
where each boundary and the probed full duration are parsed with
`parse_time` and default as shown when absent or unparseable. -/
def expectedDuration (startTime endTime probedDuration : Option String) : ℚ :=
  let start_t := (startTime.bind parse_time).getD 0
  let full_duration := (probedDuration.bind parse_time).getD 0
  let end_t := (endTime.bind parse_time).getD full_duration
  max (end_t - start_t) 0

/-- The spec's own formula for the expected active duration,
`max(0, (end ?? full_duration) - (start ?? 0))` (spec §4.4), stated over
already-parsed optional trim boundaries; compared against
`expectedDuration`, which is translated from the code. -/
def specExpectedActiveDuration (startOpt endOpt : Option ℚ)
    (fullDuration : ℚ) : ℚ :=
  max 0 ((endOpt.getD fullDuration) - (startOpt.getD 0))

/-- The denominator resolution of `run_ffmpeg_worker` (`worker.rs` lines
107–120) for one position line: the positive expected duration wins;
otherwise the previously stored `total_duration`; otherwise the group-1
capture of a `Duration:` pattern on the same line (whose parse also becomes
the new stored `total_duration`); otherwise 0.  Returns the resolved
denominator together with the updated stored duration. -/
def resolveDuration (expected : ℚ) (totalDuration : Option ℚ)
    (durCapture : Option String) : ℚ × Option ℚ :=
  if 0 < expected then (expected, totalDuration)
  else
    match totalDuration with
    | some d => (d, totalDuration)
    | none =>
      match durCapture with
      | some capStr =>
        let t := parse_time capStr
        (t.getD 0, t)
      | none => (0, totalDuration)

/-- One diagnostic line of the single-stage worker (`worker.rs` lines
104–134): `timeCapture` is the group-1 capture of `TIME_REGEX` (none when
the line does not match), `durCapture` the group-1 capture of
`DURATION_REGEX`.  Returns the emitted progress value, if any, and the
updated stored duration.  A progress event is produced only when the parsed
position exists and the resolved denominator is strictly positive. -/
def lineProgress (expected : ℚ) (totalDuration : Option ℚ)
    (timeCapture durCapture : Option String) : Option ℚ × Option ℚ :=
  match timeCapture with
  | none => (none, totalDuration)
  | some ts =>
    match parse_time ts with
    | none => (none, totalDuration)
    | some currentTime =>
      let r := resolveDuration expected totalDuration durCapture
      if 0 < r.1 then (some (min (currentTime / r.1 * 100) 100), r.2)
      else (none, r.2)

/-- The value carried by the worker's initial `conversion-progress` event
(`worker.rs` lines 50–56). -/
def initialProgress : ℚ := 0

/-- A nonempty all-digits character run (`\d+`). -/
def digitsOnly (cs : List Char) : Bool :=
  !cs.isEmpty && cs.all Char.isDigit

/-- `\d+(\.\d+)?` — the shape of one colon-separated component that may end
the capture of `TIME_REGEX` / `DURATION_REGEX`. -/
def decimalShape (cs : List Char) : Bool :=
  match splitOnCharacter '.' cs with
  | [a] => digitsOnly a
  | [a, b] => digitsOnly a && digitsOnly b
  | _ => false

/-- Shape of the group-1 capture of `utils.rs::TIME_REGEX` and
`DURATION_REGEX`, `\d+(?::\d+){0,3}(?:\.\d+)?`: one to four colon-separated
components, digits throughout, with an optional fractional tail on the last
component. -/
def timeCaptureShape (s : String) : Bool :=
  match splitOnCharacter ':' s.toList with
  | [a] => decimalShape a
  | [a, b] => digitsOnly a && decimalShape b
  | [a, b, c] => digitsOnly a && digitsOnly b && decimalShape c
  | [a, b, c, d] => digitsOnly a && digitsOnly b && digitsOnly c && decimalShape d
  | _ => false

/-- `upscale.rs` line 285: the probed estimate of the total frame count,
`ceil(active_duration * fps)` saturated into a `u32`. -/
def totalFramesEstimate (activeDuration fps : ℚ) : Nat :=
  ⌈activeDuration * fps⌉.toNat

/-- `upscale.rs` lines 439–456: the frame total used by stages 2 and 3 —
the count of decoded `.png` files when the directory could be read
(`unwrap_or` falls back to the estimate on a read error), and the estimate
again when that count is zero. -/
def resolveTotalFrames (actualFrames : Option Nat) (estimate : Nat) : Nat :=
  let a := actualFrames.getD estimate
  if 0 < a then a else estimate

/-- Stage 1 of `run_upscale_worker` (`upscale.rs` lines 408–424): the
progress emitted for a decoder `frame=` counter line — guarded by a positive
frame total, scaled into the `[0, 5]` band and capped at 5. -/
def decodeProgress (totalFrames currentFrame : Nat) : Option ℚ :=
  if 0 < totalFrames then
    some (min ((currentFrame : ℚ) / (totalFrames : ℚ) * 5) 5)
  else none

/-- Stage 2 of `run_upscale_worker` (`upscale.rs` lines 532–556): one
per-frame completion marker.  Increments `completed_frames`, skips when the
frame total is zero, computes `5 + completed/total * 85`, and emits it capped
at 90 only when it exceeds the last stored progress (which is then updated to
the uncapped value).  Returns the new counter, the new stored progress and
the emitted value, if any. -/
def upscaleStep (totalFrames completedFrames : Nat) (lastProgress : ℚ) :
    Nat × ℚ × Option ℚ :=
  let completed' := completedFrames + 1
  if totalFrames = 0 then (completed', lastProgress, none)
  else
    let progress := 5 + ((completed' : ℚ) / (totalFrames : ℚ)) * 85
    if lastProgress < progress then (completed', progress, some (min progress 90))
    else (completed', lastProgress, none)

/-- The initial `last_upscale_progress` (`upscale.rs` line 507). -/
def initialUpscaleProgress : ℚ := 5

/-- Stage 3 of `run_upscale_worker` (`upscale.rs` lines 601–617): the
progress emitted for an encoder `frame=` counter line — guarded by a positive
frame total, offset into the `[90, 100]` band and capped at 99. -/
def encodeProgress (totalFrames currentFrame : Nat) : Option ℚ :=
  if 0 < totalFrames then
    some (min (90 + (currentFrame : ℚ) / (totalFrames : ℚ) * 10) 99)
  else none

end Frame

namespace Frame

section SupportingLemmas

lemma parseDecimalMag_nonneg {cs : List Char} {q : ℚ}
    (h : parseDecimalMag cs = some q) : 0 ≤ q := by
  simp only [parseDecimalMag] at h
  split at h
  · split at h
    · exact Option.noConfusion h
    · obtain rfl := Option.some.inj h
      positivity
  · split at h
    · exact Option.noConfusion h
    · split at h
      · exact Option.noConfusion h
      · split at h
        · exact Option.noConfusion h
        · obtain rfl := Option.some.inj h
          positivity

lemma parseDecimal_nonneg {cs : List Char} {q : ℚ} (hneg : '-' ∉ cs)
    (h : parseDecimal cs = some q) : 0 ≤ q := by
  unfold parseDecimal at h
  split at h
  · simp at hneg
  · exact parseDecimalMag_nonneg h
  · exact parseDecimalMag_nonneg h

lemma splitOnCharacter_ne_nil (sep : Char) (cs : List Char) :
    splitOnCharacter sep cs ≠ [] := by
  induction cs with
  | nil => simp [splitOnCharacter]
  | cons c rest ih =>
    simp only [splitOnCharacter]
    split
    · simp
    · split
      · simp
      · simp

lemma mem_of_mem_splitOnCharacter {sep x : Char} :
    ∀ {cs part : List Char},
      part ∈ splitOnCharacter sep cs → x ∈ part → x ∈ cs := by
  intro cs
  induction cs with
  | nil =>
    intro part hp hx
    simp [splitOnCharacter] at hp
    subst hp
    simp at hx
  | cons c rest ih =>
    intro part hp hx
    simp only [splitOnCharacter] at hp
    by_cases hc : c = sep
    · rw [if_pos hc] at hp
      rcases List.mem_cons.mp hp with h1 | h2
      · subst h1; simp at hx
      · exact List.mem_cons_of_mem _ (ih h2 hx)
    · rw [if_neg hc] at hp
      rcases hr : splitOnCharacter sep rest with _ | ⟨hh, tt⟩
      · exact absurd hr (splitOnCharacter_ne_nil sep rest)
      · rw [hr] at hp
        rcases List.mem_cons.mp hp with h1 | h2
        · subst h1
          rcases List.mem_cons.mp hx with rfl | hx2
          · exact List.mem_cons_self _ _
          · refine List.mem_cons_of_mem _ (ih ?_ hx2)
            rw [hr]; exact List.mem_cons_self _ _
        · exact List.mem_cons_of_mem _ (ih (by rw [hr]; exact List.mem_cons_of_mem _ h2) hx)

lemma exists_part_of_mem_splitOnCharacter (sep : Char) {x : Char} :
    ∀ {cs : List Char}, x ∈ cs → ¬ x = sep →
      ∃ part, part ∈ splitOnCharacter sep cs ∧ x ∈ part := by
  intro cs
  induction cs with
  | nil => intro h; simp at h
  | cons c rest ih =>
    intro hx hne
    simp only [splitOnCharacter]
    rcases List.mem_cons.mp hx with rfl | hmem
    · rw [if_neg hne]
      rcases hr : splitOnCharacter sep rest with _ | ⟨hh, tt⟩
      · exact ⟨[x], by simp, by simp⟩
      · exact ⟨x :: hh, by simp, by simp⟩
    · rcases ih hmem hne with ⟨part, hp, hxp⟩
      by_cases hc : c = sep
      · rw [if_pos hc]
        exact ⟨part, List.mem_cons_of_mem _ hp, hxp⟩
      · rw [if_neg hc]
        rcases hr : splitOnCharacter sep rest with _ | ⟨hh, tt⟩
        · exact absurd hr (splitOnCharacter_ne_nil sep rest)
        · rw [hr] at hp
          rcases List.mem_cons.mp hp with h1 | h2
          · subst h1
            exact ⟨c :: part, List.mem_cons_self _ _, List.mem_cons_of_mem _ hxp⟩
          · exact ⟨part, List.mem_cons_of_mem _ h2, hxp⟩

lemma mem_of_mem_dropWhile {p : Char → Bool} {x : Char} :
    ∀ {cs : List Char}, x ∈ cs.dropWhile p → x ∈ cs := by
  intro cs
  induction cs with
  | nil => simp
  | cons c rest ih =>
    intro h
    cases hc : p c
    · simpa [List.dropWhile, hc] using h
    · simp only [List.dropWhile, hc] at h
      exact List.mem_cons_of_mem _ (ih h)

lemma mem_of_mem_trimCharacters {x : Char} {cs : List Char}
    (h : x ∈ trimCharacters cs) : x ∈ cs := by
  unfold trimCharacters at h
  rw [List.mem_reverse] at h
  have h1 := mem_of_mem_dropWhile h
  rw [List.mem_reverse] at h1
  exact mem_of_mem_dropWhile h1

lemma not_dash_of_digitsOnly {cs : List Char} (h : digitsOnly cs = true) :
    '-' ∉ cs := by
  intro hmem
  unfold digitsOnly at h
  rw [Bool.and_eq_true] at h
  have hd := List.all_eq_true.mp h.2 _ hmem
  exact absurd hd (by decide)

lemma not_dash_of_decimalShape {cs : List Char} (h : decimalShape cs = true) :
    '-' ∉ cs := by
  intro hmem
  rcases exists_part_of_mem_splitOnCharacter '.' hmem (by decide) with ⟨part, hp, hxp⟩
  unfold decimalShape at h
  rcases hs : splitOnCharacter '.' cs with _ | ⟨a, _ | ⟨b, _ | ⟨c, r⟩⟩⟩ <;>
    rw [hs] at h hp <;> dsimp only at h
  · exact Bool.noConfusion h
  · simp only [List.mem_cons, List.not_mem_nil, or_false] at hp
    subst hp
    exact not_dash_of_digitsOnly h hxp
  · rw [Bool.and_eq_true] at h
    simp only [List.mem_cons, List.not_mem_nil, or_false] at hp
    rcases hp with h1 | h1
    · subst h1; exact not_dash_of_digitsOnly h.1 hxp
    · subst h1; exact not_dash_of_digitsOnly h.2 hxp
  · exact Bool.noConfusion h

lemma parse_time_nonneg {s : String} {t : ℚ}
    (hs : timeCaptureShape s = true) (h : parse_time s = some t) : 0 ≤ t := by
  unfold timeCaptureShape at hs
  unfold parse_time at h
  rcases hp : splitOnCharacter ':' s.toList with
    _ | ⟨p0, _ | ⟨p1, _ | ⟨p2, _ | ⟨p3, ps⟩⟩⟩⟩ <;> rw [hp] at h hs <;>
    dsimp only at h hs
  · exact Option.noConfusion h
  · exact parseDecimal_nonneg (not_dash_of_decimalShape hs) h
  · rw [Bool.and_eq_true] at hs
    cases hm : parseDecimal p0 with
    | none => rw [hm] at h; exact Option.noConfusion h
    | some m =>
      rw [hm] at h
      cases hsec : parseDecimal (trimCharacters p1) with
      | none => rw [hsec] at h; exact Option.noConfusion h
      | some s2 =>
        rw [hsec] at h
        simp only [Option.bind_eq_bind, Option.some_bind, Option.pure_def] at h
        obtain rfl := Option.some.inj h
        have hm0 : 0 ≤ m := parseDecimal_nonneg (not_dash_of_digitsOnly hs.1) hm
        have hs0 : 0 ≤ s2 := parseDecimal_nonneg
          (fun hmem => not_dash_of_decimalShape hs.2 (mem_of_mem_trimCharacters hmem)) hsec
        nlinarith
  · rw [Bool.and_eq_true, Bool.and_eq_true] at hs
    cases hh : parseDecimal p0 with
    | none => rw [hh] at h; exact Option.noConfusion h
    | some hq =>
      rw [hh] at h
      cases hm : parseDecimal p1 with
      | none => rw [hm] at h; exact Option.noConfusion h
      | some m =>
        rw [hm] at h
        cases hsec : parseDecimal (trimCharacters p2) with
        | none => rw [hsec] at h; exact Option.noConfusion h
        | some s2 =>
          rw [hsec] at h
          simp only [Option.bind_eq_bind, Option.some_bind, Option.pure_def] at h
          obtain rfl := Option.some.inj h
          have h0 : 0 ≤ hq := parseDecimal_nonneg (not_dash_of_digitsOnly hs.1.1) hh
          have hm0 : 0 ≤ m := parseDecimal_nonneg (not_dash_of_digitsOnly hs.1.2) hm
          have hs0 : 0 ≤ s2 := parseDecimal_nonneg
            (fun hmem => not_dash_of_decimalShape hs.2 (mem_of_mem_trimCharacters hmem)) hsec
          nlinarith
  · exact Option.noConfusion h

lemma alookup_aerase (l : List (TaskId × Pid)) (id : TaskId) :
    alookup (aerase l id) id = none := by
  induction l with
  | nil => rfl
  | cons kv rest ih =>
    simp only [aerase]
    split
    · exact ih
    · rename_i hne
      simp only [alookup]
      rw [if_neg hne]
      exact ih

lemma alookup_ainsert (l : List (TaskId × Pid)) (id : TaskId) (pid : Pid) :
    alookup (ainsert l id pid) id = some pid := by
  simp [ainsert, alookup]

lemma drainLoop_cancelled_subset (limit : Nat) :
    ∀ q qi r c, (drainLoop limit q qi r c).cancelled ⊆ c := by
  intro q
  induction q with
  | nil => intro qi r c; simp [drainLoop]
  | cons t rest ih =>
    intro qi r c
    simp only [drainLoop]
    split
    · split
      · exact (ih _ _ _).trans (Finset.erase_subset _ _)
      · exact (ih _ _ _).trans (Finset.erase_subset _ _)
    · simp

end SupportingLemmas

/-- C9: `parse_time` maps the spec's sample well-formed timestamps to their
second counts and rejects the malformed samples. -/
theorem parse_time_spec_samples :
    parse_time "00:00:10.50" = some (21/2) ∧
    parse_time "01:00:00.00" = some 3600 ∧
    parse_time "01:30" = some 90 ∧
    parse_time "30.5" = some (61/2) ∧
    parse_time "12:34:56:78" = none ∧
    parse_time "abc" = none ∧
    parse_time "" = none := by
  refine ⟨?_, ?_, ?_, ?_, by decide, by decide, by decide⟩
  · have h : parse_time "00:00:10.50" =
        some (((0 : Nat) : ℚ) * 3600 + ((0 : Nat) : ℚ) * 60 +
          (((10 : Nat) : ℚ) + ((50 : Nat) : ℚ) / (10 : ℚ) ^ (2 : Nat))) := rfl
    rw [h]; norm_num
  · have h : parse_time "01:00:00.00" =
        some (((1 : Nat) : ℚ) * 3600 + ((0 : Nat) : ℚ) * 60 +
          (((0 : Nat) : ℚ) + ((0 : Nat) : ℚ) / (10 : ℚ) ^ (2 : Nat))) := rfl
    rw [h]; norm_num
  · have h : parse_time "01:30" =
        some (((1 : Nat) : ℚ) * 60 + ((30 : Nat) : ℚ)) := rfl
    rw [h]; norm_num
  · have h : parse_time "30.5" =
        some (((30 : Nat) : ℚ) + ((5 : Nat) : ℚ) / (10 : ℚ) ^ (1 : Nat)) := rfl
    rw [h]; norm_num

end Frame

namespace Frame

/-- C5: every progress value emitted by the three upscale stages lies in its
stage's band — stage 1 (decode) in [0, 5], stage 2 (frame processing) in
[5, 90], stage 3 (re-encode) in [90, 100] — and the frame total used by
stages 2 and 3 is the count of decoded frame files when it is positive,
falling back to the duration-times-frame-rate estimate when the count is
zero or the directory read failed. -/
theorem upscale_stage_bands :
    (∀ tf cf p, decodeProgress tf cf = some p → 0 ≤ p ∧ p ≤ 5) ∧
    (∀ tf c lp c' lp' p, upscaleStep tf c lp = (c', lp', some p) →
      5 ≤ p ∧ p ≤ 90) ∧
    (∀ tf cf p, encodeProgress tf cf = some p → 90 ≤ p ∧ p ≤ 100) ∧
    (∀ a e, resolveTotalFrames (some a) e = if 0 < a then a else e) ∧
    (∀ e, resolveTotalFrames none e = e) := by
  refine ⟨?_, ?_, ?_, ?_, ?_⟩
  · intro tf cf p h
    simp only [decodeProgress] at h
    split at h
    · obtain rfl := Option.some.inj h
      refine ⟨le_min (by positivity) (by norm_num), min_le_right _ _⟩
    · exact Option.noConfusion h
  · intro tf c lp c' lp' p h
    simp only [upscaleStep] at h
    split at h
    · rw [Prod.mk.injEq, Prod.mk.injEq] at h
      exact Option.noConfusion h.2.2
    · split at h
      · rw [Prod.mk.injEq, Prod.mk.injEq] at h
        obtain rfl := Option.some.inj h.2.2
        constructor
        · refine le_min ?_ (by norm_num)
          have hx : (0:ℚ) ≤ ((c + 1 : Nat) : ℚ) / (tf : ℚ) * 85 := by positivity
          linarith
        · exact min_le_right _ _
      · rw [Prod.mk.injEq, Prod.mk.injEq] at h
        exact Option.noConfusion h.2.2
  · intro tf cf p h
    simp only [encodeProgress] at h
    split at h
    · obtain rfl := Option.some.inj h
      constructor
      · refine le_min ?_ (by norm_num)
        have hx : (0:ℚ) ≤ (cf : ℚ) / (tf : ℚ) * 10 := by positivity
        linarith
      · exact (min_le_right _ _).trans (by norm_num)
    · exact Option.noConfusion h
  · intro a e
    simp [resolveTotalFrames]
  · intro e
    simp [resolveTotalFrames]

/-- Witness for C5 at concrete inputs: two total frames, one current /
completed frame for each stage. -/
theorem upscale_stage_bands_witness :
    (0 ≤ (5/2 : ℚ) ∧ (5/2 : ℚ) ≤ 5) ∧
    (5 ≤ (95/2 : ℚ) ∧ (95/2 : ℚ) ≤ 90) ∧
    (90 ≤ (95 : ℚ) ∧ (95 : ℚ) ≤ 100) ∧
    resolveTotalFrames (some 0) 7 = 7 :=
  ⟨upscale_stage_bands.1 2 1 (5/2) (by norm_num [decodeProgress, min_def]),
   upscale_stage_bands.2.1 2 0 5 1 (95/2) (95/2)
     (by norm_num [upscaleStep, min_def]),
   upscale_stage_bands.2.2.1 2 1 95 (by norm_num [encodeProgress, min_def]),
   by rw [upscale_stage_bands.2.2.2.1 0 7]; norm_num⟩

/-- C6: the single-stage denominator resolution prefers the positive
trim-aware expected duration, then the stored stream-discovered duration,
then a `Duration:` capture found on the current line, then 0;
`expectedDuration` coincides with the spec formula
`max(0, (end ?? full_duration) - (start ?? 0))`; and with trim boundaries
00:01:30 and 00:02:45 the expected active duration is 75 seconds whatever
the probed full duration is. -/
theorem duration_resolution_priority :
    (∀ e td dc, 0 < e → resolveDuration e td dc = (e, td)) ∧
    (∀ e d dc, ¬ 0 < e → resolveDuration e (some d) dc = (d, some d)) ∧
    (∀ e cap, ¬ 0 < e → resolveDuration e none (some cap) =
      ((parse_time cap).getD 0, parse_time cap)) ∧
    (∀ e, ¬ 0 < e → resolveDuration e none none = (0, none)) ∧
    (∀ st et fd, expectedDuration st et fd =
      specExpectedActiveDuration (st.bind parse_time) (et.bind parse_time)
        ((fd.bind parse_time).getD 0)) ∧
    (∀ probed, expectedDuration (some "00:01:30") (some "00:02:45") probed
      = 75) := by
  refine ⟨?_, ?_, ?_, ?_, ?_, ?_⟩
  · intro e td dc h
    simp [resolveDuration, h]
  · intro e d dc h
    simp [resolveDuration, h]
  · intro e cap h
    simp [resolveDuration, h]
  · intro e h
    simp [resolveDuration, h]
  · intro st et fd
    simp [expectedDuration, specExpectedActiveDuration, max_comm]
  · intro probed
    have h1 : parse_time "00:01:30" =
        some (((0 : Nat) : ℚ) * 3600 + ((1 : Nat) : ℚ) * 60 +
          ((30 : Nat) : ℚ)) := rfl
    have h2 : parse_time "00:02:45" =
        some (((0 : Nat) : ℚ) * 3600 + ((2 : Nat) : ℚ) * 60 +
          ((45 : Nat) : ℚ)) := rfl
    simp only [expectedDuration, Option.some_bind, h1, h2, Option.getD_some]
    norm_num

/-- Witness for C6 at concrete inputs. -/
theorem duration_resolution_priority_witness :
    resolveDuration 75 none (some "00:00:10.50") = (75, none) ∧
    resolveDuration 0 (some 42) none = (42, some 42) ∧
    resolveDuration 0 none (some "01:30") = (90, some 90) ∧
    resolveDuration 0 none none = (0, none) ∧
    expectedDuration (some "00:01:30") (some "00:02:45") none = 75 := by
  refine ⟨duration_resolution_priority.1 75 none _ (by norm_num),
    duration_resolution_priority.2.1 0 42 none (by norm_num), ?_,
    duration_resolution_priority.2.2.2.1 0 (by norm_num),
    duration_resolution_priority.2.2.2.2.2 none⟩
  have h := duration_resolution_priority.2.2.1 0 "01:30" (by norm_num)
  have h90 : parse_time "01:30" =
      some (((1 : Nat) : ℚ) * 60 + ((30 : Nat) : ℚ)) := rfl
  rw [h, h90]
  norm_num

end Frame

namespace Frame

/-- C7 counterexample: the claim's "unconditionally attempts removal" fails
on the kill-failure path — with a recorded positive pid whose forceful kill
the environment rejects, `cancel_task` propagates the `Shell` error of
`terminate_process(pid)?` and never reaches `cleanup_temp_upscale_dir`. -/
theorem cancel_cleanup_not_unconditional :
    alookup [("t1", 7)] "t1" = some 7 ∧
    (cancel_task { initState with active := [("t1", 7)] } "t1" false).2.1 =
      [Effect.terminate 7] ∧
    Effect.removeDirAll (tempUpscaleDirName "t1") ∉
      (cancel_task { initState with active := [("t1", 7)] } "t1" false).2.1 ∧
    (cancel_task { initState with active := [("t1", 7)] } "t1" false).2.2 =
      Except.error (ConversionError.shell "Failed to send SIGKILL") := by
  refine ⟨rfl, rfl, by decide, rfl⟩

/-- C7 amended: `cancel_task` always marks the id in the cancelled set and
terminates the recorded active process exactly when its pid is positive.
Removal of the task-scoped temporary upscale directory derived from the id
is attempted whenever no active process is found, whenever the recorded pid
is the 0 sentinel, and whenever the call succeeds; but when the kill of a
recorded positive pid fails, the `Shell` error propagates and the removal is
skipped. -/
theorem cancel_marks_terminates_cleans :
    ∀ s id ok,
      id ∈ (cancel_task s id ok).1.cancelled ∧
      (∀ pid, alookup s.active id = some pid → 0 < pid →
        Effect.terminate pid ∈ (cancel_task s id ok).2.1) ∧
      (∀ pid, Effect.terminate pid ∈ (cancel_task s id ok).2.1 →
        alookup s.active id = some pid ∧ 0 < pid) ∧
      (alookup s.active id = none →
        Effect.removeDirAll (tempUpscaleDirName id) ∈ (cancel_task s id ok).2.1) ∧
      (alookup s.active id = some 0 →
        Effect.removeDirAll (tempUpscaleDirName id) ∈ (cancel_task s id ok).2.1) ∧
      ((cancel_task s id ok).2.2 = Except.ok () →
        Effect.removeDirAll (tempUpscaleDirName id) ∈ (cancel_task s id ok).2.1) ∧
      (∀ pid, alookup s.active id = some pid → 0 < pid → ok = false →
        (cancel_task s id ok).2.2 =
          Except.error (ConversionError.shell "Failed to send SIGKILL") ∧
        Effect.removeDirAll (tempUpscaleDirName id) ∉ (cancel_task s id ok).2.1) := by
  intro s id ok
  refine ⟨?_, ?_, ?_, ?_, ?_, ?_, ?_⟩
  · rcases hl : alookup s.active id with _ | pid
    · simp [cancel_task, hl]
    · by_cases hp : 0 < pid
      · cases ok <;> simp [cancel_task, terminate_process, hl, hp]
      · simp [cancel_task, hl, hp]
  · intro pid hl hpos
    cases ok <;> simp [cancel_task, terminate_process, hl, hpos]
  · intro pid hmem
    rcases hl : alookup s.active id with _ | pid'
    · simp [cancel_task, hl] at hmem
    · by_cases hp : 0 < pid'
      · cases ok <;> simp [cancel_task, terminate_process, hl, hp] at hmem <;>
          subst hmem <;> exact ⟨rfl, hp⟩
      · simp [cancel_task, hl, hp] at hmem
  · intro hl
    simp [cancel_task, hl]
  · intro hl
    simp [cancel_task, hl]
  · intro hres
    rcases hl : alookup s.active id with _ | pid
    · simp [cancel_task, hl]
    · by_cases hp : 0 < pid
      · cases ok
        · simp [cancel_task, terminate_process, hl, hp] at hres
        · simp [cancel_task, terminate_process, hl, hp]
      · simp [cancel_task, hl, hp]
  · intro pid hl hpos hok
    subst hok
    refine ⟨by simp [cancel_task, terminate_process, hl, hpos],
      by simp [cancel_task, terminate_process, hl, hpos]⟩

/-- Witness for the amended C7: a recorded positive pid under both kill
outcomes, and an id with no active entry. -/
theorem cancel_marks_terminates_cleans_witness :
    "t1" ∈ (cancel_task { initState with active := [("t1", 7)] } "t1" true).1.cancelled ∧
    Effect.terminate 7 ∈ (cancel_task { initState with active := [("t1", 7)] } "t1" true).2.1 ∧
    Effect.removeDirAll (tempUpscaleDirName "t1") ∈ (cancel_task { initState with active := [("t1", 7)] } "t1" true).2.1 ∧
    Effect.removeDirAll (tempUpscaleDirName "tx") ∈ (cancel_task initState "tx" true).2.1 ∧
    Effect.removeDirAll (tempUpscaleDirName "t1") ∉ (cancel_task { initState with active := [("t1", 7)] } "t1" false).2.1 := by
  have h := cancel_marks_terminates_cleans { initState with active := [("t1", 7)] } "t1" true
  have hf := cancel_marks_terminates_cleans { initState with active := [("t1", 7)] } "t1" false
  have hn := cancel_marks_terminates_cleans initState "tx" true
  exact ⟨h.1, h.2.1 7 rfl (by norm_num), h.2.2.2.2.2.1 rfl, hn.2.2.2.1 rfl,
    (hf.2.2.2.2.2.2 7 rfl (by norm_num) rfl).2⟩

/-- C8 counterexample: the claim says `Cancel(id)` fails with a "task not
found" error when id has no entry in the active-process map, but
`cancel_task` on the initial state (empty active map) succeeds. -/
theorem cancel_no_notfound_counterexample :
    alookup initState.active "t1" = none ∧
    (cancel_task initState "t1" true).2.2 = Except.ok () ∧
    ∀ e : ConversionError, (cancel_task initState "t1" true).2.2 ≠ Except.error e := by
  refine ⟨rfl, rfl, ?_⟩
  intro e h
  rw [show (cancel_task initState "t1" true).2.2 = Except.ok () from rfl] at h
  exact Except.noConfusion h

/-- C8 amended: `pause_task` and `resume_task` fail with a "task not found"
error exactly when id has no active entry or the recorded pid is the 0
sentinel; with a recorded positive pid they send the suspend/resume signal
to the platform controller, returning success when delivery succeeds and a
`Shell` error when it fails.  `cancel_task` never fails with "task not
found": without a positive recorded pid it attempts cleanup and succeeds;
with one it attempts termination, succeeding (after cleanup) when the kill
succeeds and propagating a `Shell` error when it fails. -/
theorem pause_resume_notfound_cancel_ok :
    ∀ s id ok,
      (alookup s.active id = none →
        pause_task s id ok = ([], Except.error (ConversionError.taskNotFound id)) ∧
        resume_task s id ok = ([], Except.error (ConversionError.taskNotFound id)) ∧
        (cancel_task s id ok).2.2 = Except.ok ()) ∧
      (alookup s.active id = some 0 →
        pause_task s id ok = ([], Except.error (ConversionError.taskNotFound id)) ∧
        resume_task s id ok = ([], Except.error (ConversionError.taskNotFound id)) ∧
        (cancel_task s id ok).2.2 = Except.ok () ∧
        ∀ pid, Effect.terminate pid ∉ (cancel_task s id ok).2.1) ∧
      (∀ pid, alookup s.active id = some pid → 0 < pid →
        pause_task s id true = ([Effect.suspend pid], Except.ok ()) ∧
        resume_task s id true = ([Effect.resume pid], Except.ok ()) ∧
        pause_task s id false = ([Effect.suspend pid],
          Except.error (ConversionError.shell "Failed to send SIGSTOP")) ∧
        resume_task s id false = ([Effect.resume pid],
          Except.error (ConversionError.shell "Failed to send SIGCONT")) ∧
        (cancel_task s id true).2.2 = Except.ok () ∧
        (cancel_task s id false).2.2 =
          Except.error (ConversionError.shell "Failed to send SIGKILL")) ∧
      (∀ msg, (cancel_task s id ok).2.2 ≠
        Except.error (ConversionError.taskNotFound msg)) := by
  intro s id ok
  refine ⟨?_, ?_, ?_, ?_⟩
  · intro hl
    exact ⟨by simp [pause_task, hl], by simp [resume_task, hl],
      by simp [cancel_task, hl]⟩
  · intro hl
    exact ⟨by simp [pause_task, hl], by simp [resume_task, hl],
      by simp [cancel_task, hl], fun pid => by simp [cancel_task, hl]⟩
  · intro pid hl hpos
    have hne : pid ≠ 0 := Nat.pos_iff_ne_zero.mp hpos
    exact ⟨by simp [pause_task, hl, hne], by simp [resume_task, hl, hne],
      by simp [pause_task, hl, hne], by simp [resume_task, hl, hne],
      by simp [cancel_task, terminate_process, hl, hpos],
      by simp [cancel_task, terminate_process, hl, hpos]⟩
  · intro msg
    rcases hl : alookup s.active id with _ | pid
    · simp [cancel_task, hl]
    · by_cases hp : 0 < pid
      · cases ok <;> simp [cancel_task, terminate_process, hl, hp]
      · simp [cancel_task, hl, hp]

/-- Witness for the amended C8: an active map recording pid 0 for `t0` and
pid 7 for `t2`, a lookup of the unknown id `tx`, and both delivery
outcomes. -/
theorem pause_resume_notfound_cancel_ok_witness :
    pause_task { initState with active := [("t0", 0), ("t2", 7)] } "tx" true =
      ([], Except.error (ConversionError.taskNotFound "tx")) ∧
    pause_task { initState with active := [("t0", 0), ("t2", 7)] } "t0" true =
      ([], Except.error (ConversionError.taskNotFound "t0")) ∧
    resume_task { initState with active := [("t0", 0), ("t2", 7)] } "t0" true =
      ([], Except.error (ConversionError.taskNotFound "t0")) ∧
    pause_task { initState with active := [("t0", 0), ("t2", 7)] } "t2" true =
      ([Effect.suspend 7], Except.ok ()) ∧
    pause_task { initState with active := [("t0", 0), ("t2", 7)] } "t2" false =
      ([Effect.suspend 7],
        Except.error (ConversionError.shell "Failed to send SIGSTOP")) ∧
    (cancel_task { initState with active := [("t0", 0), ("t2", 7)] } "tx" true).2.2 =
      Except.ok () ∧
    (cancel_task { initState with active := [("t0", 0), ("t2", 7)] } "t2" false).2.2 ≠
      Except.error (ConversionError.taskNotFound "t2") ∧
    Effect.terminate 9 ∉
      (cancel_task { initState with active := [("t0", 0), ("t2", 7)] } "t0" true).2.1 := by
  have h := pause_resume_notfound_cancel_ok
    { initState with active := [("t0", 0), ("t2", 7)] }
  exact ⟨((h "tx" true).1 rfl).1, ((h "t0" true).2.1 rfl).1,
    ((h "t0" true).2.1 rfl).2.1,
    ((h "t2" true).2.2.1 7 rfl (by norm_num)).1,
    ((h "t2" false).2.2.1 7 rfl (by norm_num)).2.2.1,
    ((h "tx" true).1 rfl).2.2,
    (h "t2" false).2.2.2 "t2",
    ((h "t0" true).2.1 rfl).2.2.2 9⟩

/-- C2: when the scheduler processes `TaskStarted(id, pid)` and id is marked
cancelled, it terminates the reported process (when its pid is positive),
removes id from the running registry and from the active-process map, and
re-drains the queue; when id is not cancelled it records the pid as the
task's active process and changes nothing else. -/
theorem taskStarted_cancel_race :
    ∀ s id pid,
      (id ∈ s.cancelled →
        (0 < pid → Effect.terminate pid ∈ (stepMsg s (.taskStarted id pid)).2) ∧
        stepMsg s (.taskStarted id pid) =
          ((processQueue { s with running := s.running.erase id, active := aerase s.active id }).1,
           (if 0 < pid then [Effect.terminate pid] else []) ++
             (processQueue { s with running := s.running.erase id, active := aerase s.active id }).2) ∧
        alookup ((stepMsg s (.taskStarted id pid)).1).active id = none) ∧
      (id ∉ s.cancelled →
        stepMsg s (.taskStarted id pid) = ({ s with active := ainsert s.active id pid }, []) ∧
        alookup ((stepMsg s (.taskStarted id pid)).1).active id = some pid) := by
  intro s id pid
  constructor
  · intro hc
    have heq : stepMsg s (.taskStarted id pid) =
        ((processQueue { s with running := s.running.erase id, active := aerase s.active id }).1,
         (if 0 < pid then [Effect.terminate pid] else []) ++
           (processQueue { s with running := s.running.erase id, active := aerase s.active id }).2) := by
      simp [stepMsg, hc]
    refine ⟨?_, heq, ?_⟩
    · intro hp
      rw [heq]
      simp [hp]
    · rw [heq]
      exact alookup_aerase s.active id
  · intro hc
    have heq : stepMsg s (.taskStarted id pid) =
        ({ s with active := ainsert s.active id pid }, []) := by
      simp [stepMsg, hc]
    refine ⟨heq, ?_⟩
    rw [heq]
    exact alookup_ainsert s.active id pid

/-- Witness for C2: a cancelled id with a live pid, and an uncancelled id. -/
theorem taskStarted_cancel_race_witness :
    Effect.terminate 5 ∈
      (stepMsg { initState with cancelled := {"t1"} } (.taskStarted "t1" 5)).2 ∧
    alookup ((stepMsg initState (.taskStarted "t2" 9)).1).active "t2" = some 9 := by
  have h1 := taskStarted_cancel_race { initState with cancelled := {"t1"} } "t1" 5
  have h2 := taskStarted_cancel_race initState "t2" 9
  exact ⟨(h1.1 (by decide)).1 (by norm_num), (h2.2 (by decide)).2⟩

/-- C3: `Enqueue(task)` first clears any cancellation mark for the id (the
result state never keeps one); a task whose id is already running or queued
is dropped with no other change and no effect; otherwise the id joins the
queued-id set, the task goes to the back of the queue, and a drain runs. -/
theorem enqueue_dedup :
    ∀ s task,
      task.id ∉ ((stepMsg s (.enqueue task)).1).cancelled ∧
      (task.id ∈ s.running ∨ task.id ∈ s.queuedIds →
        stepMsg s (.enqueue task) =
          ({ s with cancelled := s.cancelled.erase task.id }, [])) ∧
      (task.id ∉ s.running ∧ task.id ∉ s.queuedIds →
        stepMsg s (.enqueue task) =
          processQueue { s with cancelled := s.cancelled.erase task.id, queuedIds := insert task.id s.queuedIds, queue := s.queue ++ [task] }) := by
  intro s task
  refine ⟨?_, ?_, ?_⟩
  · by_cases hd : task.id ∈ s.running ∨ task.id ∈ s.queuedIds
    · simp [stepMsg, hd]
    · simp only [stepMsg, if_pos hd, if_neg hd]
      intro hmem
      have hsub := drainLoop_cancelled_subset
        (max s.maxConcurrency 1) (s.queue ++ [task])
        (insert task.id s.queuedIds) s.running (s.cancelled.erase task.id)
      exact Finset.not_mem_erase _ _ (hsub hmem)
  · intro hd
    simp [stepMsg, hd]
  · intro hd
    rcases hd with ⟨h1, h2⟩
    have hd' : ¬ (task.id ∈ s.running ∨ task.id ∈ s.queuedIds) := by
      intro hx
      rcases hx with hx | hx
      · exact h1 hx
      · exact h2 hx
    simp [stepMsg, hd']

/-- Witness for C3: enqueueing onto the empty scheduler and onto a scheduler
already running the same id. -/
theorem enqueue_dedup_witness :
    ConversionTask.id ⟨"t1"⟩ ∉ ((stepMsg initState (.enqueue ⟨"t1"⟩)).1).cancelled ∧
    stepMsg { initState with running := {"t1"} } (.enqueue ⟨"t1"⟩) =
      ({ initState with running := {"t1"} }, []) := by
  have h1 := (enqueue_dedup initState ⟨"t1"⟩).1
  have h2 := (enqueue_dedup { initState with running := {"t1"} } ⟨"t1"⟩).2.1
    (Or.inl (by decide))
  refine ⟨h1, ?_⟩
  rw [h2]
  simp [initState]

end Frame

namespace Frame

/-- C10: the single-stage worker emits a progress event for a position line
only when the resolved denominator is strictly positive (so the percentage
computation never divides by zero); when the denominator resolves to 0 the
line produces no progress event; every emitted value lies in [0, 100] (the
position capture's regex shape makes the parsed position nonnegative and the
computed value is capped at 100); and the initial progress event carries 0. -/
theorem progress_emission_guard :
    (∀ e td tc dc, ¬ 0 < (resolveDuration e td dc).1 →
      (lineProgress e td tc dc).1 = none) ∧
    (∀ e td ts dc p td', lineProgress e td (some ts) dc = (some p, td') →
      0 < (resolveDuration e td dc).1) ∧
    (∀ e td ts dc p td', timeCaptureShape ts = true →
      lineProgress e td (some ts) dc = (some p, td') → 0 ≤ p ∧ p ≤ 100) ∧
    (0 ≤ initialProgress ∧ initialProgress ≤ 100) := by
  refine ⟨?_, ?_, ?_, by norm_num [initialProgress]⟩
  · intro e td tc dc h
    rcases tc with _ | ts
    · rfl
    · simp only [lineProgress]
      rcases hp : parse_time ts with _ | ct
      · rfl
      · simp [h]
  · intro e td ts dc p td' h
    simp only [lineProgress] at h
    rcases hp : parse_time ts with _ | ct <;> rw [hp] at h <;> dsimp only at h
    · exact Option.noConfusion (congrArg Prod.fst h)
    · split at h
      · assumption
      · exact Option.noConfusion (congrArg Prod.fst h)
  · intro e td ts dc p td' hshape h
    simp only [lineProgress] at h
    rcases hp : parse_time ts with _ | ct <;> rw [hp] at h <;> dsimp only at h
    · exact Option.noConfusion (congrArg Prod.fst h)
    · split at h
      · rename_i hpos
        rw [Prod.mk.injEq] at h
        obtain rfl := Option.some.inj h.1
        have hct : 0 ≤ ct := parse_time_nonneg hshape hp
        constructor
        · refine le_min ?_ (by norm_num)
          have hdiv : 0 ≤ ct / (resolveDuration e td dc).1 :=
            div_nonneg hct (le_of_lt hpos)
          nlinarith
        · exact min_le_right _ _
      · rw [Prod.mk.injEq] at h
        exact Option.noConfusion h.1

/-- Witness for C10: an unresolvable denominator produces no event, and a
position of 5 s against an expected duration of 10 s emits 50. -/
theorem progress_emission_guard_witness :
    (lineProgress 0 none (some "5") none).1 = none ∧
    (0 ≤ (50 : ℚ) ∧ (50 : ℚ) ≤ 100) := by
  constructor
  · exact progress_emission_guard.1 0 none (some "5") none
      (by norm_num [resolveDuration])
  · refine progress_emission_guard.2.2.1 10 none "5" none 50 none (by decide) ?_
    have h5 : parse_time "5" = some (((5 : Nat) : ℚ)) := rfl
    norm_num [lineProgress, resolveDuration, h5, min_def]

end Frame

namespace Frame

lemma drainLoop_at_capacity (limit : Nat) (q : List ConversionTask)
    (qi r c : Finset TaskId) (h : limit ≤ r.card) :
    drainLoop limit q qi r c = ⟨q, qi, r, c, []⟩ := by
  cases q with
  | nil => rfl
  | cons t rest =>
    simp only [drainLoop]
    rw [if_neg (by omega)]

lemma drainLoop_card_le (limit : Nat) :
    ∀ q qi r c, (drainLoop limit q qi r c).running.card ≤ max r.card limit := by
  intro q
  induction q with
  | nil => intro qi r c; exact le_max_left _ _
  | cons t rest ih =>
    intro qi r c
    simp only [drainLoop]
    split
    · rename_i hlt
      split
      · exact ih _ _ _
      · refine (ih _ _ _).trans ?_
        have hc : (insert t.id r).card ≤ limit :=
          (Finset.card_insert_le _ _).trans (by omega)
        rw [max_eq_right hc]
        exact le_max_right _ _
    · exact le_max_left _ _

lemma processQueue_running_card (s : SchedState) :
    (processQueue s).1.running.card ≤
      max s.running.card (max s.maxConcurrency 1) :=
  drainLoop_card_le _ _ _ _ _

lemma cancel_task_state (s : SchedState) (id : TaskId) (ok : Bool) :
    (cancel_task s id ok).1 = { s with cancelled := insert id s.cancelled } := by
  rcases h : alookup s.active id with _ | pid
  · simp [cancel_task, h]
  · by_cases hp : 0 < pid
    · cases ok <;> simp [cancel_task, terminate_process, h, hp]
    · simp [cancel_task, h, hp]

lemma cancel_task_no_spawn (s : SchedState) (id tid : TaskId) (ok : Bool) :
    Effect.spawnWorker tid ∉ (cancel_task s id ok).2.1 := by
  rcases h : alookup s.active id with _ | pid
  · simp [cancel_task, h]
  · by_cases hp : 0 < pid
    · cases ok <;> simp [cancel_task, terminate_process, h, hp]
    · simp [cancel_task, h, hp]

lemma step_running_bound {L : Nat} (hL : 1 ≤ L) (s : SchedState) (a : Action)
    (hr : s.running.card ≤ L) (hm : s.maxConcurrency ≤ L)
    (ha : ∀ n, a = Action.setLimit n → n ≤ L) :
    (step s a).1.running.card ≤ L ∧ (step s a).1.maxConcurrency ≤ L := by
  cases a with
  | msg m =>
    cases m with
    | enqueue task =>
      simp only [step, stepMsg]
      split
      · exact ⟨hr, hm⟩
      · exact ⟨(processQueue_running_card _).trans (max_le hr (max_le hm hL)), hm⟩
    | taskStarted id pid =>
      simp only [step, stepMsg]
      split
      · refine ⟨(processQueue_running_card _).trans (max_le ?_ (max_le hm hL)), hm⟩
        exact Finset.card_erase_le.trans hr
      · exact ⟨hr, hm⟩
    | taskCompleted id =>
      simp only [step, stepMsg]
      refine ⟨(processQueue_running_card _).trans (max_le ?_ (max_le hm hL)), hm⟩
      exact Finset.card_erase_le.trans hr
    | taskError id =>
      simp only [step, stepMsg]
      refine ⟨(processQueue_running_card _).trans (max_le ?_ (max_le hm hL)), hm⟩
      exact Finset.card_erase_le.trans hr
  | setLimit n =>
    simp only [step, update_max_concurrency]
    split
    · exact ⟨hr, hm⟩
    · exact ⟨hr, ha n rfl⟩
  | cancel cid cok =>
    simp only [step]
    rw [cancel_task_state]
    exact ⟨hr, hm⟩

lemma runActions_bound {L : Nat} (hL : 1 ≤ L) :
    ∀ acts s, s.running.card ≤ L → s.maxConcurrency ≤ L →
      (∀ n, Action.setLimit n ∈ acts → n ≤ L) →
      (runActions s acts).running.card ≤ L := by
  intro acts
  induction acts with
  | nil => intro s hr _ _; exact hr
  | cons a rest ih =>
    intro s hr hm ha
    simp only [runActions]
    have hstep := step_running_bound hL s a hr hm
      (fun n hn => ha n (by rw [← hn]; exact List.mem_cons_self _ _))
    exact ih _ hstep.1 hstep.2 (fun n hn => ha n (List.mem_cons_of_mem _ hn))

/-- C1: the drain makes no change at all once the running set has reached
the (1-clamped) limit; a drain never pushes the running count above the
maximum of its starting count and the limit; and along any action sequence —
messages, limit updates and cancellations interleaved — the running count
never exceeds any bound that dominates the initial count and every limit in
effect, so a limit lowered mid-run only stops new starts and never preempts
running tasks. -/
theorem concurrency_limit_invariant :
    (∀ s, max s.maxConcurrency 1 ≤ s.running.card →
      (processQueue s).1 = s ∧ (processQueue s).2 = []) ∧
    (∀ s, (processQueue s).1.running.card ≤
      max s.running.card (max s.maxConcurrency 1)) ∧
    (∀ L s acts, 1 ≤ L → s.running.card ≤ L → s.maxConcurrency ≤ L →
      (∀ n, Action.setLimit n ∈ acts → n ≤ L) →
      (runActions s acts).running.card ≤ L) := by
  refine ⟨?_, processQueue_running_card, ?_⟩
  · intro s h
    have hd := drainLoop_at_capacity (max s.maxConcurrency 1) s.queue
      s.queuedIds s.running s.cancelled h
    constructor
    · simp only [processQueue, hd]
    · simp only [processQueue, hd]
  · intro L s acts hL hr hm ha
    exact runActions_bound hL acts s hr hm ha

/-- Witness for C1: three enqueues against the default limit of 2 keep the
running count at 2, and a drain at capacity changes nothing. -/
theorem concurrency_limit_invariant_witness :
    (runActions initState
      [Action.msg (.enqueue ⟨"a"⟩), Action.msg (.enqueue ⟨"b"⟩),
       Action.msg (.enqueue ⟨"c"⟩)]).running.card ≤ 2 ∧
    (processQueue { initState with running := {"a", "b"}, queue := [⟨"c"⟩] }).2
      = [] := by
  constructor
  · exact concurrency_limit_invariant.2.2 2 initState _ (by norm_num)
      (by decide) (by decide) (by intro n hn; simp at hn)
  · exact (concurrency_limit_invariant.1
      { initState with running := {"a", "b"}, queue := [⟨"c"⟩] } (by decide)).2

end Frame

namespace Frame

lemma drainLoop_no_spawn (limit : Nat) (id : TaskId) :
    ∀ q qi r c,
      id ∉ r →
      ((q.map ConversionTask.id).count id ≤ 1) →
      (id ∈ q.map ConversionTask.id → id ∈ c) →
      Effect.spawnWorker id ∉ (drainLoop limit q qi r c).effects ∧
      id ∉ (drainLoop limit q qi r c).running ∧
      (((drainLoop limit q qi r c).queue.map ConversionTask.id).count id ≤ 1) ∧
      (id ∈ (drainLoop limit q qi r c).queue.map ConversionTask.id →
        id ∈ (drainLoop limit q qi r c).cancelled) := by
  intro q
  induction q with
  | nil =>
    intro qi r c h1 h2 h3
    exact ⟨List.not_mem_nil _, h1, by simp [drainLoop], by simp [drainLoop]⟩
  | cons t rest ih =>
    intro qi r c h1 h2 h3
    have hcnt_rest : ((rest.map ConversionTask.id).count id ≤ 1) := by
      simp only [List.map_cons, List.count_cons] at h2
      omega
    simp only [drainLoop]
    split
    · rename_i hlt
      by_cases hc : t.id ∈ c
      · rw [if_pos hc]
        by_cases hid : t.id = id
        · subst hid
          have hnm : t.id ∉ rest.map ConversionTask.id := by
            rw [← List.count_eq_zero]
            simp only [List.map_cons, List.count_cons_self] at h2
            omega
          exact ih _ _ _ h1 hcnt_rest (fun hmem => absurd hmem hnm)
        · refine ih _ _ _ h1 hcnt_rest ?_
          intro hmem
          refine Finset.mem_erase.mpr ⟨fun he => hid he.symm, ?_⟩
          exact h3 (by rw [List.map_cons]; exact List.mem_cons_of_mem _ hmem)
      · rw [if_neg hc]
        have hid : t.id ≠ id := fun he => hc (by
          rw [he]
          exact h3 (by rw [List.map_cons, he]; exact List.mem_cons_self _ _))
        have h1i : id ∉ insert t.id r := by
          rw [Finset.mem_insert]
          rintro (he | hm)
          · exact hid he.symm
          · exact h1 hm
        have h3e : id ∈ rest.map ConversionTask.id → id ∈ c.erase t.id := by
          intro hmem
          refine Finset.mem_erase.mpr ⟨fun he => hid he.symm, ?_⟩
          exact h3 (by rw [List.map_cons]; exact List.mem_cons_of_mem _ hmem)
        have hrec := ih (qi.erase t.id) (insert t.id r) (c.erase t.id)
          h1i hcnt_rest h3e
        refine ⟨?_, hrec.2.1, hrec.2.2.1, hrec.2.2.2⟩
        intro hmem
        rcases List.mem_cons.mp hmem with he | hm
        · exact hid ((Effect.spawnWorker.inj he).symm)
        · exact hrec.1 hm
    · exact ⟨List.not_mem_nil _, h1, h2, h3⟩

lemma step_no_spawn (id : TaskId) (s : SchedState) (a : Action)
    (h1 : id ∉ s.running)
    (h2 : ((s.queue.map ConversionTask.id).count id ≤ 1))
    (h3 : id ∈ s.queue.map ConversionTask.id → id ∈ s.cancelled)
    (ha1 : ∀ t, a = Action.msg (.enqueue t) → t.id ≠ id)
    (ha2 : a ≠ Action.msg (.taskCompleted id))
    (ha3 : a ≠ Action.msg (.taskError id)) :
    Effect.spawnWorker id ∉ (step s a).2 ∧
    id ∉ (step s a).1.running ∧
    (((step s a).1.queue.map ConversionTask.id).count id ≤ 1) ∧
    (id ∈ (step s a).1.queue.map ConversionTask.id →
      id ∈ (step s a).1.cancelled) := by
  cases a with
  | msg m =>
    cases m with
    | enqueue task =>
      have htid : task.id ≠ id := ha1 task rfl
      simp only [step, stepMsg]
      split
      · exact ⟨List.not_mem_nil _, h1, h2, fun hmem =>
          Finset.mem_erase.mpr ⟨fun he => htid he.symm, h3 hmem⟩⟩
      · refine drainLoop_no_spawn _ id _ _ _ _ h1 ?_ ?_
        · have hz : id ∉ [task].map ConversionTask.id := by
            simp only [List.map_cons, List.map_nil, List.mem_singleton]
            exact fun he => htid he.symm
          rw [List.map_append, List.count_append,
            List.count_eq_zero.mpr hz]
          simpa using h2
        · intro hmem
          rw [List.map_append] at hmem
          rcases List.mem_append.mp hmem with hm | hm
          · exact Finset.mem_erase.mpr ⟨fun he => htid he.symm, h3 hm⟩
          · simp only [List.map_cons, List.map_nil, List.mem_singleton] at hm
            exact absurd hm.symm htid
    | taskStarted tid pid =>
      simp only [step, stepMsg]
      split
      · have hd := drainLoop_no_spawn (max s.maxConcurrency 1) id s.queue
          s.queuedIds (s.running.erase tid) s.cancelled
          (fun hm => h1 (Finset.mem_of_mem_erase hm)) h2 h3
        refine ⟨?_, hd.2.1, hd.2.2.1, hd.2.2.2⟩
        intro hmem
        rcases List.mem_append.mp hmem with hm | hm
        · split at hm <;> simp at hm
        · exact hd.1 hm
      · exact ⟨List.not_mem_nil _, h1, h2, h3⟩
    | taskCompleted tid =>
      have htid : tid ≠ id := fun he => ha2 (by rw [he])
      simp only [step, stepMsg]
      exact drainLoop_no_spawn _ id _ _ _ _
        (fun hm => h1 (Finset.mem_of_mem_erase hm)) h2
        (fun hmem => Finset.mem_erase.mpr ⟨fun he => htid he.symm, h3 hmem⟩)
    | taskError tid =>
      have htid : tid ≠ id := fun he => ha3 (by rw [he])
      simp only [step, stepMsg]
      have hd := drainLoop_no_spawn (max s.maxConcurrency 1) id s.queue
        s.queuedIds (s.running.erase tid) (s.cancelled.erase tid)
        (fun hm => h1 (Finset.mem_of_mem_erase hm)) h2
        (fun hmem => Finset.mem_erase.mpr ⟨fun he => htid he.symm, h3 hmem⟩)
      refine ⟨?_, hd.2.1, hd.2.2.1, hd.2.2.2⟩
      intro hmem
      rcases List.mem_cons.mp hmem with he | hmem2
      · exact Effect.noConfusion he
      · rcases List.mem_cons.mp hmem2 with he | hm
        · exact Effect.noConfusion he
        · exact hd.1 hm
  | setLimit n =>
    simp only [step, update_max_concurrency]
    split
    · exact ⟨List.not_mem_nil _, h1, h2, h3⟩
    · exact ⟨List.not_mem_nil _, h1, h2, h3⟩
  | cancel cid cok =>
    simp only [step]
    rw [cancel_task_state]
    exact ⟨cancel_task_no_spawn s cid id cok, h1, h2,
      fun hmem => Finset.mem_insert_of_mem (h3 hmem)⟩

lemma runTrace_no_spawn (id : TaskId) :
    ∀ acts s,
      id ∉ s.running →
      ((s.queue.map ConversionTask.id).count id ≤ 1) →
      (id ∈ s.queue.map ConversionTask.id → id ∈ s.cancelled) →
      (∀ t, Action.msg (.enqueue t) ∈ acts → t.id ≠ id) →
      Action.msg (.taskCompleted id) ∉ acts →
      Action.msg (.taskError id) ∉ acts →
      Effect.spawnWorker id ∉ runEffects s acts ∧
      id ∉ (runActions s acts).running := by
  intro acts
  induction acts with
  | nil =>
    intro s h1 _ _ _ _ _
    exact ⟨List.not_mem_nil _, h1⟩
  | cons a rest ih =>
    intro s h1 h2 h3 ha1 ha2 ha3
    have hstep := step_no_spawn id s a h1 h2 h3
      (fun t ht => ha1 t (by rw [← ht]; exact List.mem_cons_self _ _))
      (fun he => ha2 (by rw [← he]; exact List.mem_cons_self _ _))
      (fun he => ha3 (by rw [← he]; exact List.mem_cons_self _ _))
    have hrest := ih ((step s a).1) hstep.2.1 hstep.2.2.1 hstep.2.2.2
      (fun t ht => ha1 t (List.mem_cons_of_mem _ ht))
      (fun hm => ha2 (List.mem_cons_of_mem _ hm))
      (fun hm => ha3 (List.mem_cons_of_mem _ hm))
    refine ⟨?_, hrest.2⟩
    simp only [runEffects]
    intro hmem
    rcases List.mem_append.mp hmem with hm | hm
    · exact hstep.1 hm
    · exact hrest.1 hm

/-- C4: the drain pops a cancel-marked task, consumes the mark, discards the
task without marking it running, and continues with the remaining queue; and
a task id that is cancelled while queued (marked cancelled whenever still in
the queue, at most one queue occurrence, not running) is never spawned and
never becomes running along any sequence of actions that does not re-enqueue
that id — no worker, hence no `started` event, is ever produced for it
(workers alone emit `started`, and none carries worker messages for an id
that was never started). -/
theorem cancelled_queued_never_starts :
    (∀ limit t rest qi r c, t.id ∈ c → r.card < limit →
      drainLoop limit (t :: rest) qi r c =
        drainLoop limit rest (qi.erase t.id) r (c.erase t.id)) ∧
    (∀ s id acts,
      id ∉ s.running →
      ((s.queue.map ConversionTask.id).count id ≤ 1) →
      (id ∈ s.queue.map ConversionTask.id → id ∈ s.cancelled) →
      (∀ t, Action.msg (.enqueue t) ∈ acts → t.id ≠ id) →
      Action.msg (.taskCompleted id) ∉ acts →
      Action.msg (.taskError id) ∉ acts →
      Effect.spawnWorker id ∉ runEffects s acts ∧
      id ∉ (runActions s acts).running) := by
  constructor
  · intro limit t rest qi r c hc hlt
    simp only [drainLoop]
    rw [if_pos hlt, if_pos hc]
  · intro s id acts h1 h2 h3 ha1 ha2 ha3
    exact runTrace_no_spawn id acts s h1 h2 h3 ha1 ha2 ha3

/-- Witness for C4: task `t1` queued and cancel-marked; a limit update and a
foreign `TaskStarted` message are processed; `t1` is never spawned. -/
theorem cancelled_queued_never_starts_witness :
    drainLoop 2 [⟨"t1"⟩] {"t1"} ∅ {"t1"} =
      drainLoop 2 [] (Finset.erase {"t1"} "t1") ∅ (Finset.erase {"t1"} "t1") ∧
    (Effect.spawnWorker "t1" ∉
      runEffects { initState with queue := [⟨"t1"⟩], queuedIds := {"t1"}, cancelled := {"t1"} }
        [Action.setLimit 3, Action.msg (.taskStarted "t9" 4)] ∧
    "t1" ∉ (runActions { initState with queue := [⟨"t1"⟩], queuedIds := {"t1"}, cancelled := {"t1"} }
        [Action.setLimit 3, Action.msg (.taskStarted "t9" 4)]).running) := by
  constructor
  · exact cancelled_queued_never_starts.1 2 ⟨"t1"⟩ [] {"t1"} ∅ {"t1"}
      (by decide) (by decide)
  · refine cancelled_queued_never_starts.2
      { initState with queue := [⟨"t1"⟩], queuedIds := {"t1"}, cancelled := {"t1"} }
      "t1" [Action.setLimit 3, Action.msg (.taskStarted "t9" 4)]
      (by decide) (by decide) (by decide) ?_ (by decide) (by decide)
    intro t ht
    simp at ht

end Frame
